import Mathlib

/-!
Shallow embedding of the Daily Digits core: the Character Store
(`CharacterContext`, final variant) and the Decay Scheduler
(`DecayTimerContext`).  JavaScript numbers are modelled as rationals
(`ℚ`); the one place where `NaN` is observable (a decay setting's
`timeValue`, guarded by `isNaN`) is modelled by the sum type `JNum`.
JavaScript objects used as string-keyed maps (`characterSheet.categories`,
`decaySettings`) are modelled as association lists with JS spread/delete
semantics (`jsSet`, `jsErase`): setting an existing key replaces the value
in place, setting a fresh key appends.
-/

namespace DailyDigits

/-- JS object lookup `m[k]` on a string-keyed record. -/
def jsLookup {α : Type} (m : List (String × α)) (k : String) : Option α :=
  match m with
  | [] => none
  | (k', v) :: rest => if k' = k then some v else jsLookup rest k

/-- JS spread update `{...m, [k]: v}`: replace in place if present, else append. -/
def jsSet {α : Type} (m : List (String × α)) (k : String) (v : α) : List (String × α) :=
  match m with
  | [] => [(k, v)]
  | (k', v') :: rest => if k' = k then (k, v) :: rest else (k', v') :: jsSet rest k v

/-- JS `delete m[k]`: drop the (first) binding for `k`. -/
def jsErase {α : Type} (m : List (String × α)) (k : String) : List (String × α) :=
  match m with
  | [] => []
  | (k', v') :: rest => if k' = k then rest else (k', v') :: jsErase rest k

/-- An attribute: `{ name: string, value: number }`. -/
structure Stat where
  name : String
  value : ℚ
deriving DecidableEq, Repr

/-- A category (`StatCategory` in the source): id, display fields, the
aggregate `score`, and the ordered list of attributes. -/
structure StatCategory where
  id : String
  name : String
  description : String
  score : ℚ
  icon : String
  gradient : String × String
  stats : List Stat
deriving DecidableEq, Repr

/-- The root aggregate (final variant): `{ categories: Record<string, StatCategory> }`. -/
structure CharacterSheet where
  categories : List (String × StatCategory)
deriving DecidableEq, Repr

/-- The `stat` field of an activity log entry: `string | string[]`. -/
inductive StatRef where
  | one (s : String)
  | many (l : List String)
deriving DecidableEq, Repr

/-- `Array.isArray(stat) ? stat : [stat]`. -/
def StatRef.toList : StatRef → List String
  | .one s => [s]
  | .many l => l

/-- An activity log entry. -/
structure ActivityLog where
  id : String
  date : String
  activity : String
  category : String
  stat : StatRef
  points : ℚ
deriving DecidableEq, Repr

/-- Character Store state: the sheet plus the append-only activity log. -/
structure CharState where
  sheet : CharacterSheet
  log : List ActivityLog
deriving DecidableEq, Repr

/-- `stats.reduce((sum, stat) => sum + stat.value, 0)`. -/
def sumValues (l : List Stat) : ℚ :=
  l.foldl (fun acc s => acc + s.value) 0

/-- Add `points` to the first stat named `statName`; `none` when no stat
matches (mirrors `findIndex` returning `-1`). -/
def bumpStat (l : List Stat) (statName : String) (points : ℚ) : Option (List Stat) :=
  match l with
  | [] => none
  | s :: rest =>
    if s.name = statName then some ({ s with value := s.value + points } :: rest)
    else (bumpStat rest statName points).map (s :: ·)

/-- `updateStat(categoryId, statName, points)`: locate category and stat
(silent no-op when either is missing), add `points` to the stat's value and
recompute `score = 10 + sum(values)`. -/
def updateStat (sheet : CharacterSheet) (categoryId statName : String) (points : ℚ) :
    CharacterSheet :=
  match jsLookup sheet.categories categoryId with
  | none => sheet
  | some categoryObj =>
    match bumpStat categoryObj.stats statName points with
    | none => sheet
    | some stats' =>
      let categoryObj' := { categoryObj with stats := stats', score := 10 + sumValues stats' }
      { sheet with categories := jsSet sheet.categories categoryId categoryObj' }

/-- `statExists(categoryId, statName)` in the Decay Scheduler. -/
def statExists (sheet : CharacterSheet) (categoryId statName : String) : Bool :=
  match jsLookup sheet.categories categoryId with
  | none => false
  | some category => category.stats.any (fun s => s.name = statName)

/-- Observation helper: the current value of a named attribute. -/
def getStatValue (sheet : CharacterSheet) (categoryId statName : String) : Option ℚ :=
  match jsLookup sheet.categories categoryId with
  | none => none
  | some category => (category.stats.find? (fun s => s.name = statName)).map (·.value)

/-- Fan a point delta out over a list of stat names via `updateStat`. -/
def applyPoints (sheet : CharacterSheet) (categoryId : String) (names : List String)
    (points : ℚ) : CharacterSheet :=
  names.foldl (fun sh n => updateStat sh categoryId n points) sheet

/-- `logActivity` (final variant): append the entry, then `updateStat` once
per named stat with the full point value.  `newId`/`newDate` stand for
`Date.now().toString()` / `new Date().toISOString()`. -/
def logActivity (st : CharState) (newId newDate activity categoryId : String)
    (stats : StatRef) (points : ℚ) : CharState :=
  { sheet := applyPoints st.sheet categoryId stats.toList points
    log := st.log ++ [{ id := newId, date := newDate, activity := activity,
                        category := categoryId, stat := stats, points := points }] }

/-- `Partial<ActivityLog>` updates. -/
structure ActivityUpdates where
  date? : Option String := none
  activity? : Option String := none
  category? : Option String := none
  stat? : Option StatRef := none
  points? : Option ℚ := none
deriving DecidableEq, Repr

/-- `{...originalActivity, ...updates}`. -/
def mergeActivity (e : ActivityLog) (u : ActivityUpdates) : ActivityLog :=
  { id := e.id
    date := u.date?.getD e.date
    activity := u.activity?.getD e.activity
    category := u.category?.getD e.category
    stat := u.stat?.getD e.stat
    points := u.points?.getD e.points }

/-- `editActivity(id, updates)` (final variant): when the edit touches
`stat` or `points`, reverse the old entry's points from each old stat, then
apply the merged points to each new stat — both against the *original*
entry's category — and store the merged entry. -/
def editActivity (st : CharState) (id : String) (u : ActivityUpdates) : CharState :=
  match st.log.findIdx? (fun a => a.id = id) with
  | none => st
  | some i =>
    match st.log[i]? with
    | none => st
    | some e =>
      let sheet' :=
        if u.stat?.isSome ∨ u.points?.isSome then
          let oldStats := e.stat.toList
          let newStats := (u.stat?.map StatRef.toList).getD oldStats
          let newPoints := u.points?.getD e.points
          applyPoints (applyPoints st.sheet e.category oldStats (-e.points))
            e.category newStats newPoints
        else st.sheet
      { sheet := sheet', log := st.log.set i (mergeActivity e u) }

/-- `deleteActivity(id)`: filter the entry out of the log; the sheet is untouched. -/
def deleteActivity (st : CharState) (id : String) : CharState :=
  { st with log := st.log.filter (fun a => ¬(a.id = id)) }

/-- `Omit<StatCategory, 'id'>` as passed to `addCategory`. -/
structure CategoryInput where
  name : String
  description : String
  score : ℚ
  icon : String
  gradient : String × String
  stats : List Stat
deriving DecidableEq, Repr

/-- The stored category built by `addCategory`. -/
def mkCategory (c : CategoryInput) (newId : String) : StatCategory :=
  { id := newId, name := c.name, description := c.description, score := c.score,
    icon := c.icon, gradient := c.gradient, stats := c.stats }

/-- `addCategory(category)` (final variant): stores the input under a fresh
id (`Date.now().toString()`, here a parameter) without recomputing `score`,
and returns the id. -/
def addCategory (sheet : CharacterSheet) (newId : String) (c : CategoryInput) :
    CharacterSheet :=
  { sheet with categories := jsSet sheet.categories newId (mkCategory c newId) }

/-- `Partial<StatCategory>` updates. -/
structure CategoryUpdates where
  name? : Option String := none
  description? : Option String := none
  score? : Option ℚ := none
  icon? : Option String := none
  gradient? : Option (String × String) := none
  stats? : Option (List Stat) := none
deriving DecidableEq, Repr

/-- `{...prevSheet.categories[id], ...updates}`. -/
def mergeCategory (c : StatCategory) (u : CategoryUpdates) : StatCategory :=
  { id := c.id
    name := u.name?.getD c.name
    description := u.description?.getD c.description
    score := u.score?.getD c.score
    icon := u.icon?.getD c.icon
    gradient := u.gradient?.getD c.gradient
    stats := u.stats?.getD c.stats }

/-- `updateCategory(id, updates)` (final variant): merge when present, no-op otherwise. -/
def updateCategory (sheet : CharacterSheet) (id : String) (u : CategoryUpdates) :
    CharacterSheet :=
  match jsLookup sheet.categories id with
  | none => sheet
  | some c => { sheet with categories := jsSet sheet.categories id (mergeCategory c u) }

/-- `deleteCategory(id)` (final variant): drop the key. -/
def deleteCategory (sheet : CharacterSheet) (id : String) : CharacterSheet :=
  { sheet with categories := jsErase sheet.categories id }

/-- Per-category score invariant: `score == 10 + sum(values)`. -/
def scoreOK (c : StatCategory) : Prop :=
  c.score = 10 + sumValues c.stats

instance (c : StatCategory) : Decidable (scoreOK c) := by
  unfold scoreOK; infer_instance

/-- The spec's global score invariant over the whole sheet. -/
def sheetInvariant (sheet : CharacterSheet) : Prop :=
  ∀ e ∈ sheet.categories, scoreOK e.2

instance (sheet : CharacterSheet) : Decidable (sheetInvariant sheet) :=
  List.decidableBAll _ _

/-! ## Decay Scheduler (`DecayTimerContext`) -/

/-- A JS number where `NaN` is observable (a decay setting's `timeValue`). -/
inductive JNum where
  | nan
  | val (q : ℚ)
deriving DecidableEq, Repr

/-- `isNaN(x)`. -/
def JNum.isNaN : JNum → Bool
  | .nan => true
  | .val _ => false

/-- The numeric value after a non-`NaN` guard. -/
def JNum.toQ : JNum → ℚ
  | .nan => 0
  | .val q => q

/-- `isNaN(timeValue) || timeValue <= 0` (a `NaN` comparison is false in JS). -/
def invalidTime (t : JNum) : Bool :=
  match t with
  | .nan => true
  | .val q => decide (q ≤ 0)

/-- `timeUnit: 'minutes' | 'hours' | 'days'`. -/
inductive TimeUnit where
  | minutes
  | hours
  | days
deriving DecidableEq, Repr

/-- Milliseconds per unit (the `switch (setting.timeUnit)` blocks). -/
def msPerUnit : TimeUnit → ℚ
  | .minutes => 60 * 1000
  | .hours => 60 * 60 * 1000
  | .days => 24 * 60 * 60 * 1000

/-- A stored decay setting.  `lastUpdate` is the ISO timestamp modelled as
epoch milliseconds. -/
structure DecaySetting where
  categoryId : String
  statName : String
  points : ℚ
  timeValue : JNum
  timeUnit : TimeUnit
  lastUpdate : ℚ
  enabled : Bool
deriving DecidableEq, Repr

/-- `Omit<DecaySetting, 'lastUpdate'>` as passed to `addDecaySetting`. -/
structure DecaySettingInput where
  categoryId : String
  statName : String
  points : ℚ
  timeValue : JNum
  timeUnit : TimeUnit
  enabled : Bool
deriving DecidableEq, Repr

/-- `{...setting, lastUpdate: new Date().toISOString()}`. -/
def mkSetting (s : DecaySettingInput) (now : ℚ) : DecaySetting :=
  { categoryId := s.categoryId, statName := s.statName, points := s.points,
    timeValue := s.timeValue, timeUnit := s.timeUnit, lastUpdate := now,
    enabled := s.enabled }

/-- `getSettingKey(categoryId, statName)`. -/
def getSettingKey (categoryId statName : String) : String :=
  categoryId ++ "-" ++ statName

/-- Scheduler state: the settings map plus the set of keys with an armed
wake-up (`decayTimers`, abstracted to which keys hold a live timer). -/
structure SchedState where
  settings : List (String × DecaySetting)
  timers : List String
deriving DecidableEq, Repr

/-- `scheduleDecayTimer(settingKey, setting)` restricted to its effect on
the armed-timer set: cancel any existing timer for the key, bail out on a
disabled setting or an invalid interval, and arm a wake-up only when the
next due time is more than one second away. -/
def scheduleDecayTimer (now : ℚ) (timers : List String) (key : String)
    (s : DecaySetting) : List String :=
  let timers1 := timers.erase key
  if ¬s.enabled then timers1
  else
    let msToAdd := s.timeValue.toQ * msPerUnit s.timeUnit
    if s.timeValue.isNaN ∨ msToAdd ≤ 0 then timers1
    else
      let msUntilDecay := max 0 (s.lastUpdate + msToAdd - now)
      if 1000 < msUntilDecay then timers1 ++ [key] else timers1

/-- A deduction event: `updateStat(categoryId, statName, -amount)` together
with the matching user notification. -/
def Deduction : Type := String × String × ℚ

instance : DecidableEq Deduction := by
  unfold Deduction; infer_instance

/-- Result of a fired wake-up callback. -/
structure FireResult where
  sheet : CharacterSheet
  sched : SchedState
  deductions : List (String × String × ℚ)
deriving DecidableEq, Repr

/-- The `setTimeout` callback body of `scheduleDecayTimer`: re-check that
the stat exists; if so deduct `setting.points` once, stamp `lastUpdate`
with the firing time, notify and reschedule; otherwise remove the setting
(`removeDecaySetting`, which also cancels the timer). -/
def timerFired (now : ℚ) (sheet : CharacterSheet) (st : SchedState) (key : String)
    (s : DecaySetting) : FireResult :=
  if statExists sheet s.categoryId s.statName then
    let s' := { s with lastUpdate := now }
    { sheet := updateStat sheet s.categoryId s.statName (-s.points)
      sched := { settings := jsSet st.settings key s'
                 timers := scheduleDecayTimer now st.timers key s' }
      deductions := [(s.categoryId, s.statName, s.points)] }
  else
    { sheet := sheet
      sched := { settings := jsErase st.settings key, timers := st.timers.erase key }
      deductions := [] }

/-- Accumulator of the missed-decay reconciliation pass. -/
structure ReconAcc where
  settings : List (String × DecaySetting)
  sheet : CharacterSheet
  deductions : List (String × String × ℚ)
deriving DecidableEq, Repr

/-- One iteration of the reconciliation `forEach` (the missed-decay
`useEffect`): drop a setting whose stat vanished — unless its `lastUpdate`
is within 5 s of `now` (`appJustStarted`) — else, for an enabled setting
with a valid interval whose elapsed time spans at least one cycle, deduct
`points * floor(elapsed/cycle)` in one `updateStat` call and advance
`lastUpdate` by the consumed whole cycles.  Existence is checked against
the pass's initial sheet `sheet0` (the React closure value); stat updates
thread through the accumulator. -/
def reconcileStep (now : ℚ) (sheet0 : CharacterSheet) (acc : ReconAcc)
    (e : String × DecaySetting) : ReconAcc :=
  let key := e.1
  let s := e.2
  let appJustStarted := now - s.lastUpdate < 5000
  if ¬appJustStarted ∧ ¬(statExists sheet0 s.categoryId s.statName = true) then
    acc
  else if s.enabled then
    if invalidTime s.timeValue then
      { acc with settings := acc.settings ++ [(key, s)] }
    else
      let tv := s.timeValue.toQ
      let m := msPerUnit s.timeUnit
      let unitsSinceUpdate := (now - s.lastUpdate) / m
      if tv ≤ unitsSinceUpdate then
        let decayCycles : ℤ := ⌊unitsSinceUpdate / tv⌋
        let pointsToDeduct := s.points * decayCycles
        let consumedMs := (decayCycles : ℚ) * tv * m
        { settings := acc.settings ++ [(key, { s with lastUpdate := s.lastUpdate + consumedMs })]
          sheet := updateStat acc.sheet s.categoryId s.statName (-pointsToDeduct)
          deductions := acc.deductions ++ [(s.categoryId, s.statName, pointsToDeduct)] }
      else
        { acc with settings := acc.settings ++ [(key, s)] }
  else
    { acc with settings := acc.settings ++ [(key, s)] }

/-- The missed-decay reconciliation pass over the whole settings map. -/
def reconcile (now : ℚ) (sheet : CharacterSheet)
    (settings : List (String × DecaySetting)) : ReconAcc :=
  settings.foldl (reconcileStep now sheet) { settings := [], sheet := sheet, deductions := [] }

/-- `addDecaySetting(setting)`: reject an invalid `timeValue` outright;
when the stat does not (yet) exist the immediate invocation changes
nothing (a retry is only deferred); otherwise store the setting stamped
with `now` and schedule its wake-up. -/
def addDecaySetting (sheet : CharacterSheet) (now : ℚ) (st : SchedState)
    (inp : DecaySettingInput) : SchedState :=
  if invalidTime inp.timeValue then st
  else if ¬(statExists sheet inp.categoryId inp.statName = true) then st
  else
    let key := getSettingKey inp.categoryId inp.statName
    let s := mkSetting inp now
    { settings := jsSet st.settings key s
      timers := scheduleDecayTimer now st.timers key s }

/-- Result of `forceAddDecaySetting`: the new settings map, and the copy
written to `AsyncStorage` inside the same updater. -/
structure ForceAddResult where
  settings : List (String × DecaySetting)
  persisted : List (String × DecaySetting)
deriving DecidableEq, Repr

/-- `forceAddDecaySetting(setting)`: store under `categoryId-statName` with
`lastUpdate = now`, with no validation, persisting immediately. -/
def forceAddDecaySetting (now : ℚ) (settings : List (String × DecaySetting))
    (inp : DecaySettingInput) : ForceAddResult :=
  let key := getSettingKey inp.categoryId inp.statName
  let updated := jsSet settings key (mkSetting inp now)
  { settings := updated, persisted := updated }

/-! ## Concrete data for witnesses and counterexamples -/

/-- A one-category, one-attribute sheet (category `mind`, attribute `Focus` at 0). -/
def demoCat : StatCategory :=
  { id := "mind", name := "Mind", description := "Intelligence, wisdom, and focus",
    score := 10, icon := "", gradient := ("#3B82F6", "#06B6D4"),
    stats := [{ name := "Focus", value := 0 }] }

def demoSheet : CharacterSheet := { categories := [("mind", demoCat)] }

/-- The spec's catch-up example: 3 points every 2 days, last updated at epoch 0. -/
def demoSetting : DecaySetting :=
  { categoryId := "mind", statName := "Focus", points := 3, timeValue := JNum.val 2,
    timeUnit := TimeUnit.days, lastUpdate := 0, enabled := true }

/-- A sheet whose `Focus` attribute starts at 10, for the timer-callback example. -/
def fireSheet : CharacterSheet :=
  { categories := [("mind", { demoCat with stats := [{ name := "Focus", value := 10 }] })] }

/-- 2 points every minute, last updated at epoch 0. -/
def fireSetting : DecaySetting :=
  { categoryId := "mind", statName := "Focus", points := 2, timeValue := JNum.val 1,
    timeUnit := TimeUnit.minutes, lastUpdate := 0, enabled := true }

/-- A setting referencing a category that is absent from `demoSheet`. -/
def orphanSetting : DecaySetting :=
  { categoryId := "gone", statName := "X", points := 1, timeValue := JNum.val 1,
    timeUnit := TimeUnit.minutes, lastUpdate := 0, enabled := true }

/-- A category input whose stored `score` (0) differs from `10 + sum(values)`. -/
def badCatInput : CategoryInput :=
  { name := "X", description := "", score := 0, icon := "", gradient := ("", ""),
    stats := [] }

/-- A decay-setting input with the invalid interval `timeValue = 0`. -/
def zeroInput : DecaySettingInput :=
  { categoryId := "c", statName := "s", points := 1, timeValue := JNum.val 0,
    timeUnit := TimeUnit.minutes, enabled := true }

/-- Store state holding one logged activity: `Focus`, `+3`, id `"a1"`. -/
def c4State : CharState :=
  logActivity { sheet := demoSheet, log := [] } "a1" "2024-01-01" "studied" "mind"
    (StatRef.one "Focus") 3

/-- The log entry produced by `c4State`. -/
def c4Entry : ActivityLog :=
  { id := "a1", date := "2024-01-01", activity := "studied", category := "mind",
    stat := StatRef.one "Focus", points := 3 }

/-! ## Helper lemmas -/

theorem jsLookup_jsSet_self {α : Type} (m : List (String × α)) (k : String) (v : α) :
    jsLookup (jsSet m k v) k = some v := by
  induction m with
  | nil => simp [jsSet, jsLookup]
  | cons e rest ih =>
    by_cases h : e.1 = k
    · simp [jsSet, jsLookup, h]
    · simp [jsSet, jsLookup, h, ih]

theorem mem_jsSet {α : Type} {m : List (String × α)} {k : String} {v : α}
    {e : String × α} (h : e ∈ jsSet m k v) : e = (k, v) ∨ e ∈ m := by
  induction m with
  | nil => simpa [jsSet] using h
  | cons hd rest ih =>
    by_cases hk : hd.1 = k
    · rw [jsSet] at h
      simp only [hk, if_pos] at h
      rcases List.mem_cons.mp h with h1 | h1
      · exact Or.inl h1
      · exact Or.inr (List.mem_cons_of_mem _ h1)
    · rw [jsSet] at h
      simp only [hk, if_neg, not_false_iff] at h
      rcases List.mem_cons.mp h with h1 | h1
      · exact Or.inr (h1 ▸ List.mem_cons_self _ _)
      · rcases ih h1 with h2 | h2
        · exact Or.inl h2
        · exact Or.inr (List.mem_cons_of_mem _ h2)

theorem mem_jsErase {α : Type} {m : List (String × α)} {k : String}
    {e : String × α} (h : e ∈ jsErase m k) : e ∈ m := by
  induction m with
  | nil => simp [jsErase] at h
  | cons hd rest ih =>
    by_cases hk : hd.1 = k
    · rw [jsErase] at h
      simp only [hk, if_pos] at h
      exact List.mem_cons_of_mem _ h
    · rw [jsErase] at h
      simp only [hk, if_neg, not_false_iff] at h
      rcases List.mem_cons.mp h with h1 | h1
      · exact h1 ▸ List.mem_cons_self _ _
      · exact List.mem_cons_of_mem _ (ih h1)

theorem bumpStat_eq_none {l : List Stat} {statName : String} {p : ℚ}
    (h : l.any (fun s => s.name = statName) = false) :
    bumpStat l statName p = none := by
  induction l with
  | nil => rfl
  | cons s rest ih =>
    simp only [List.any_cons, Bool.or_eq_false_iff] at h
    rw [bumpStat, if_neg (by simpa using h.1), ih h.2]
    rfl

theorem bumpStat_any {l l' : List Stat} {statName : String} {p : ℚ}
    (h : bumpStat l statName p = some l') (x : String) :
    l'.any (fun s => s.name = x) = l.any (fun s => s.name = x) := by
  induction l generalizing l' with
  | nil => simp [bumpStat] at h
  | cons s rest ih =>
    rw [bumpStat] at h
    by_cases hn : s.name = statName
    · rw [if_pos hn] at h
      cases h
      simp [List.any_cons]
    · rw [if_neg hn] at h
      cases hrest : bumpStat rest statName p with
      | none => rw [hrest] at h; cases h
      | some rest' =>
        rw [hrest] at h
        cases h
        simp [List.any_cons, ih hrest]

theorem bumpStat_find? {l : List Stat} {statName : String} {p : ℚ} {st : Stat}
    (h : l.find? (fun s => s.name = statName) = some st) :
    ∃ l', bumpStat l statName p = some l' ∧
      l'.find? (fun s => s.name = statName) = some { st with value := st.value + p } := by
  induction l with
  | nil => simp [List.find?] at h
  | cons s rest ih =>
    by_cases hn : s.name = statName
    · rw [List.find?_cons_of_pos _ (by simpa using hn)] at h
      cases h
      refine ⟨_, by rw [bumpStat, if_pos hn], ?_⟩
      exact List.find?_cons_of_pos _ (by simpa using hn)
    · rw [List.find?_cons_of_neg _ (by simpa using hn)] at h
      rcases ih h with ⟨rest', h1, h2⟩
      refine ⟨s :: rest', ?_, ?_⟩
      · rw [bumpStat, if_neg hn, h1]; rfl
      · rw [List.find?_cons_of_neg _ (by simpa using hn)]; exact h2

theorem bumpStat_none_any {l : List Stat} {statName : String} {p : ℚ}
    (h : bumpStat l statName p = none) :
    l.any (fun s => s.name = statName) = false := by
  induction l with
  | nil => rfl
  | cons s rest ih =>
    rw [bumpStat] at h
    by_cases hn : s.name = statName
    · rw [if_pos hn] at h; cases h
    · rw [if_neg hn] at h
      have hr : bumpStat rest statName p = none := Option.map_eq_none'.mp h
      simp [List.any_cons, hn, ih hr]

/-- Case analysis on `updateStat`: either the silent no-op (missing category
or stat) or the successful in-place update with score recomputation. -/
theorem updateStat_eq (sheet : CharacterSheet) (c s : String) (p : ℚ) :
    (statExists sheet c s = false ∧ updateStat sheet c s p = sheet) ∨
    ∃ cat stats', jsLookup sheet.categories c = some cat ∧
      bumpStat cat.stats s p = some stats' ∧
      updateStat sheet c s p =
        ⟨jsSet sheet.categories c
          { cat with stats := stats', score := 10 + sumValues stats' }⟩ := by
  unfold updateStat
  split
  · next hc =>
    refine Or.inl ⟨?_, rfl⟩
    unfold statExists
    rw [hc]
  · next cat hc =>
    split
    · next hb =>
      refine Or.inl ⟨?_, rfl⟩
      have h1 : cat.stats.any (fun t => t.name = s) = false := bumpStat_none_any hb
      unfold statExists
      rw [hc]
      exact h1
    · next stats' hb => exact Or.inr ⟨cat, stats', hc, hb, rfl⟩

theorem statExists_of_getStatValue {sheet : CharacterSheet} {c s : String} {v : ℚ}
    (h : getStatValue sheet c s = some v) : statExists sheet c s = true := by
  unfold getStatValue at h
  unfold statExists
  split at h
  · cases h
  · next cat hc =>
    cases hf : cat.stats.find? (fun t => t.name = s) with
    | none => rw [hf] at h; cases h
    | some st =>
      have hp := List.find?_some hf
      exact List.any_eq_true.mpr ⟨st, List.mem_of_find?_eq_some hf, hp⟩

theorem getStatValue_updateStat {sheet : CharacterSheet} {c s : String} {v : ℚ} (p : ℚ)
    (h : getStatValue sheet c s = some v) :
    getStatValue (updateStat sheet c s p) c s = some (v + p) := by
  unfold getStatValue at h
  split at h
  · cases h
  · next cat hc =>
    cases hf : cat.stats.find? (fun t => t.name = s) with
    | none => rw [hf] at h; cases h
    | some st =>
      rw [hf] at h
      simp only [Option.map_some'] at h
      rcases updateStat_eq sheet c s p with ⟨hfalse, _⟩ | ⟨cat2, stats', hc2, hb, heq⟩
      · have hp := List.find?_some hf
        have hex : statExists sheet c s = true := by
          unfold statExists
          rw [hc]
          exact List.any_eq_true.mpr ⟨st, List.mem_of_find?_eq_some hf, hp⟩
        rw [hex] at hfalse
        cases hfalse
      · rw [hc] at hc2
        injection hc2 with hcc
        subst hcc
        rcases bumpStat_find? (p := p) hf with ⟨stats2, hb2, hfind⟩
        rw [hb] at hb2
        injection hb2 with hss
        subst hss
        rw [heq]
        have h3 : getStatValue
            ⟨jsSet sheet.categories c
              { cat with stats := stats', score := 10 + sumValues stats' }⟩ c s
            = (stats'.find? (fun t => t.name = s)).map (·.value) := by
          unfold getStatValue
          rw [jsLookup_jsSet_self]
        rw [h3, hfind]
        injection h with h4
        simp [h4]

theorem statExists_updateStat (sheet : CharacterSheet) (c s : String) (p : ℚ) :
    statExists (updateStat sheet c s p) c s = statExists sheet c s := by
  rcases updateStat_eq sheet c s p with ⟨_, heq⟩ | ⟨cat, stats', hc, hb, heq⟩
  · rw [heq]
  · rw [heq]
    have h1 : statExists
        ⟨jsSet sheet.categories c
          { cat with stats := stats', score := 10 + sumValues stats' }⟩ c s
        = stats'.any (fun t => t.name = s) := by
      unfold statExists
      rw [jsLookup_jsSet_self]
    have h2 : statExists sheet c s = cat.stats.any (fun t => t.name = s) := by
      unfold statExists
      rw [hc]
    rw [h1, h2]
    exact bumpStat_any hb s

theorem sheetInvariant_updateStat (sheet : CharacterSheet) (c s : String) (p : ℚ)
    (h : sheetInvariant sheet) : sheetInvariant (updateStat sheet c s p) := by
  rcases updateStat_eq sheet c s p with ⟨_, heq⟩ | ⟨cat, stats', hc, hb, heq⟩
  · rw [heq]; exact h
  · rw [heq]
    intro e he
    rcases mem_jsSet he with h1 | h1
    · rw [h1]; rfl
    · exact h e h1

theorem sheetInvariant_applyPoints (sheet : CharacterSheet) (c : String)
    (names : List String) (p : ℚ) (h : sheetInvariant sheet) :
    sheetInvariant (applyPoints sheet c names p) := by
  induction names generalizing sheet with
  | nil => exact h
  | cons n rest ih =>
    exact ih _ (sheetInvariant_updateStat _ _ _ _ h)

theorem msPerUnit_pos (u : TimeUnit) : (0:ℚ) < msPerUnit u := by
  cases u <;> norm_num [msPerUnit]

/-- Orphan branch of a reconciliation iteration: a setting whose stat no
longer exists and whose `lastUpdate` is at least 5 s old is dropped, with
no deduction and no sheet change. -/
theorem reconcileStep_orphan (now : ℚ) (sheet0 : CharacterSheet) (acc : ReconAcc)
    (key : String) (s : DecaySetting)
    (hex : statExists sheet0 s.categoryId s.statName = false)
    (hold : 5000 ≤ now - s.lastUpdate) :
    reconcileStep now sheet0 acc (key, s) = acc := by
  simp [reconcileStep, hex, not_lt.mpr hold]

/-- Keep branch of a reconciliation iteration: a setting that passes the
orphan check but is disabled, has an invalid interval, or has not yet
completed a full cycle is kept unchanged, with no deduction. -/
theorem reconcileStep_keep (now : ℚ) (sheet0 : CharacterSheet) (acc : ReconAcc)
    (key : String) (s : DecaySetting)
    (hguard : now - s.lastUpdate < 5000 ∨ statExists sheet0 s.categoryId s.statName = true)
    (hskip : s.enabled = false ∨ invalidTime s.timeValue = true ∨
      ∃ q, s.timeValue = JNum.val q ∧ 0 < q ∧
        now - s.lastUpdate < q * msPerUnit s.timeUnit) :
    reconcileStep now sheet0 acc (key, s) =
      { acc with settings := acc.settings ++ [(key, s)] } := by
  have hg : ¬(¬(now - s.lastUpdate < 5000) ∧
      ¬(statExists sheet0 s.categoryId s.statName = true)) := by
    rcases hguard with h | h
    · intro hc; exact hc.1 h
    · intro hc; exact hc.2 h
  simp only [reconcileStep]
  rw [if_neg hg]
  rcases hskip with h | h | ⟨q, htv, hq, hlt⟩
  · rw [h, if_neg Bool.false_ne_true]
  · by_cases he : s.enabled = true
    · rw [he, if_pos rfl, h, if_pos rfl]
    · rw [if_neg he]
  · by_cases he : s.enabled = true
    · have hm : (0:ℚ) < msPerUnit s.timeUnit := msPerUnit_pos s.timeUnit
      have hinv : invalidTime s.timeValue = false := by
        rw [htv]; simp [invalidTime, not_le.mpr hq]
      have hcond : ¬(s.timeValue.toQ ≤ (now - s.lastUpdate) / msPerUnit s.timeUnit) := by
        rw [htv]
        simp only [JNum.toQ]
        rw [not_le, div_lt_iff₀ hm]
        linarith [hlt]
      rw [he, if_pos rfl, hinv, if_neg Bool.false_ne_true, if_neg hcond]
    · rw [if_neg he]

/-- Decay branch of a reconciliation iteration: an enabled setting with a
valid positive interval, an existing stat, and at least one elapsed cycle
is deducted `points * floor(elapsed / cycle)` in one `updateStat` call,
and its `lastUpdate` advances by exactly the consumed whole cycles. -/
theorem reconcileStep_decay (now : ℚ) (sheet0 : CharacterSheet) (acc : ReconAcc)
    (key : String) (s : DecaySetting) (q : ℚ)
    (henabled : s.enabled = true)
    (htv : s.timeValue = JNum.val q) (hq : 0 < q)
    (hguard : now - s.lastUpdate < 5000 ∨ statExists sheet0 s.categoryId s.statName = true)
    (helapsed : q * msPerUnit s.timeUnit ≤ now - s.lastUpdate) :
    reconcileStep now sheet0 acc (key, s) =
      { settings := acc.settings ++ [(key, { s with lastUpdate := s.lastUpdate
            + (⌊(now - s.lastUpdate) / (q * msPerUnit s.timeUnit)⌋ : ℤ)
              * (q * msPerUnit s.timeUnit) })]
        sheet := updateStat acc.sheet s.categoryId s.statName
            (-(s.points * (⌊(now - s.lastUpdate) / (q * msPerUnit s.timeUnit)⌋ : ℤ)))
        deductions := acc.deductions
            ++ [(s.categoryId, s.statName,
                 s.points * (⌊(now - s.lastUpdate) / (q * msPerUnit s.timeUnit)⌋ : ℤ))] } := by
  have hm : (0:ℚ) < msPerUnit s.timeUnit := msPerUnit_pos s.timeUnit
  have hg : ¬(¬(now - s.lastUpdate < 5000) ∧
      ¬(statExists sheet0 s.categoryId s.statName = true)) := by
    rcases hguard with h | h
    · intro hc; exact hc.1 h
    · intro hc; exact hc.2 h
  have hinv : invalidTime s.timeValue = false := by
    rw [htv]; simp [invalidTime, not_le.mpr hq]
  have hcond : s.timeValue.toQ ≤ (now - s.lastUpdate) / msPerUnit s.timeUnit := by
    rw [htv]
    simp only [JNum.toQ]
    rw [le_div_iff₀ hm]
    linarith [helapsed]
  have hfl : (now - s.lastUpdate) / msPerUnit s.timeUnit / s.timeValue.toQ
      = (now - s.lastUpdate) / (q * msPerUnit s.timeUnit) := by
    rw [htv]
    simp only [JNum.toQ]
    rw [div_div, mul_comm]
  simp only [reconcileStep]
  rw [if_neg hg, henabled, if_pos rfl, hinv, if_neg Bool.false_ne_true, if_pos hcond, hfl]
  have htoq : s.timeValue.toQ = q := by rw [htv]; rfl
  rw [htoq, mul_assoc]

/-! ## Claim theorems -/

/-- C1: for an enabled decay setting with a valid positive `timeValue`, when
the reconciliation pass runs at `now` with elapsed time spanning at least
one full cycle, it deducts exactly `points * floor(elapsed / cycle)` from
the referenced attribute in one aggregated `updateStat` call, and advances
`lastUpdate` by exactly `floor(elapsed / cycle) * cycle` milliseconds (not
to `now`). -/
theorem decay_reconcile_catchup
    (now : ℚ) (sheet : CharacterSheet) (key : String) (s : DecaySetting) (q v : ℚ)
    (henabled : s.enabled = true)
    (htv : s.timeValue = JNum.val q) (hq : 0 < q)
    (hval : getStatValue sheet s.categoryId s.statName = some v)
    (helapsed : q * msPerUnit s.timeUnit ≤ now - s.lastUpdate) :
    (reconcile now sheet [(key, s)]).deductions
      = [(s.categoryId, s.statName,
          s.points * ((⌊(now - s.lastUpdate) / (q * msPerUnit s.timeUnit)⌋ : ℤ) : ℚ))] ∧
    (reconcile now sheet [(key, s)]).settings
      = [(key, { s with lastUpdate := s.lastUpdate
          + ((⌊(now - s.lastUpdate) / (q * msPerUnit s.timeUnit)⌋ : ℤ) : ℚ)
            * (q * msPerUnit s.timeUnit) })] ∧
    getStatValue (reconcile now sheet [(key, s)]).sheet s.categoryId s.statName
      = some (v - s.points
          * ((⌊(now - s.lastUpdate) / (q * msPerUnit s.timeUnit)⌋ : ℤ) : ℚ)) := by
  have hex := statExists_of_getStatValue hval
  have hstep := reconcileStep_decay now sheet
    { settings := [], sheet := sheet, deductions := [] } key s q henabled htv hq
    (Or.inr hex) helapsed
  have hr : reconcile now sheet [(key, s)]
      = reconcileStep now sheet { settings := [], sheet := sheet, deductions := [] }
        (key, s) := rfl
  rw [hr, hstep]
  refine ⟨by simp, by simp, ?_⟩
  have h2 := getStatValue_updateStat
    (-(s.points * ((⌊(now - s.lastUpdate) / (q * msPerUnit s.timeUnit)⌋ : ℤ) : ℚ))) hval
  rw [h2, ← sub_eq_add_neg]

theorem decay_reconcile_catchup_witness :
    demoSetting.enabled = true ∧
    demoSetting.timeValue = JNum.val 2 ∧ (0:ℚ) < 2 ∧
    getStatValue demoSheet demoSetting.categoryId demoSetting.statName = some 0 ∧
    (2:ℚ) * msPerUnit demoSetting.timeUnit ≤ 604800000 - demoSetting.lastUpdate ∧
    (reconcile 604800000 demoSheet [("mind-Focus", demoSetting)]).deductions
      = [("mind", "Focus", 9)] ∧
    (reconcile 604800000 demoSheet [("mind-Focus", demoSetting)]).settings
      = [("mind-Focus", { demoSetting with lastUpdate := 518400000 })] ∧
    getStatValue (reconcile 604800000 demoSheet [("mind-Focus", demoSetting)]).sheet
      demoSetting.categoryId demoSetting.statName = some (-9) := by
  have h := decay_reconcile_catchup 604800000 demoSheet "mind-Focus" demoSetting 2 0
    rfl rfl (by norm_num) rfl (by norm_num [msPerUnit, demoSetting])
  refine ⟨rfl, rfl, by norm_num, rfl, by norm_num [msPerUnit, demoSetting], ?_, ?_, ?_⟩
  · rw [h.1]
    norm_num [demoSetting, msPerUnit, Int.floor_eq_iff]
  · rw [h.2.1]
    norm_num [demoSetting, msPerUnit, Int.floor_eq_iff]
  · rw [h.2.2]
    norm_num [demoSetting, msPerUnit, Int.floor_eq_iff]

/-- C5: `updateStat` with a category id absent from the categories map, or
with an attribute name absent from that category's stats, leaves the whole
CharacterSheet unchanged (silent no-op). -/
theorem updateStat_missing_noop (sheet : CharacterSheet) (c s : String) (p : ℚ)
    (h : jsLookup sheet.categories c = none ∨
      ∃ cat, jsLookup sheet.categories c = some cat ∧
        cat.stats.any (fun t => t.name = s) = false) :
    updateStat sheet c s p = sheet := by
  rcases updateStat_eq sheet c s p with ⟨_, heq⟩ | ⟨cat, stats', hc, hb, heq⟩
  · exact heq
  · rcases h with h0 | ⟨cat2, hc2, hany⟩
    · rw [h0] at hc; cases hc
    · rw [hc] at hc2
      injection hc2 with hcc
      subst hcc
      rw [bumpStat_eq_none hany] at hb
      cases hb

theorem updateStat_missing_noop_witness :
    ((jsLookup demoSheet.categories "nope" = none ∨
      ∃ cat, jsLookup demoSheet.categories "nope" = some cat ∧
        cat.stats.any (fun t => t.name = "Focus") = false) ∧
      updateStat demoSheet "nope" "Focus" 5 = demoSheet) ∧
    ((jsLookup demoSheet.categories "mind" = none ∨
      ∃ cat, jsLookup demoSheet.categories "mind" = some cat ∧
        cat.stats.any (fun t => t.name = "Charm") = false) ∧
      updateStat demoSheet "mind" "Charm" 5 = demoSheet) :=
  ⟨⟨Or.inl rfl, updateStat_missing_noop demoSheet "nope" "Focus" 5 (Or.inl rfl)⟩,
   ⟨Or.inr ⟨demoCat, rfl, rfl⟩, updateStat_missing_noop demoSheet "mind" "Charm" 5
      (Or.inr ⟨demoCat, rfl, rfl⟩)⟩⟩

/-- C8: `addDecaySetting` called with `timeValue` equal to 0, a negative
number, or `NaN` stores no setting and arms no timer: the scheduler state
is unchanged. -/
theorem addDecaySetting_rejects_invalid (sheet : CharacterSheet) (now : ℚ)
    (st : SchedState) (inp : DecaySettingInput)
    (h : inp.timeValue = JNum.nan ∨ ∃ q, inp.timeValue = JNum.val q ∧ q ≤ 0) :
    addDecaySetting sheet now st inp = st := by
  have hinv : invalidTime inp.timeValue = true := by
    rcases h with h | ⟨q, hq, hle⟩
    · rw [h]; rfl
    · rw [hq]; simp [invalidTime, hle]
  unfold addDecaySetting
  rw [hinv, if_pos rfl]

theorem addDecaySetting_rejects_invalid_witness :
    (zeroInput.timeValue = JNum.nan ∨
      ∃ q, zeroInput.timeValue = JNum.val q ∧ q ≤ 0) ∧
    addDecaySetting demoSheet 1000 { settings := [], timers := [] } zeroInput
      = { settings := [], timers := [] } :=
  ⟨Or.inr ⟨0, rfl, le_refl 0⟩,
   addDecaySetting_rejects_invalid demoSheet 1000 { settings := [], timers := [] }
     zeroInput (Or.inr ⟨0, rfl, le_refl 0⟩)⟩

/-- C10: `forceAddDecaySetting` stores the provided setting under
`categoryId-statName` with `lastUpdate = now` for every input — and
persists it immediately — bypassing both the invalid-interval check and the
attribute-must-exist check of `addDecaySetting`; in particular a setting
with `timeValue = 0` whose referenced attribute does not exist is stored
anyway. -/
theorem forceAddDecaySetting_bypasses_checks :
    (∀ (now : ℚ) (settings : List (String × DecaySetting)) (inp : DecaySettingInput),
      jsLookup (forceAddDecaySetting now settings inp).settings
          (getSettingKey inp.categoryId inp.statName) = some (mkSetting inp now) ∧
      (mkSetting inp now).lastUpdate = now ∧
      (forceAddDecaySetting now settings inp).persisted
        = (forceAddDecaySetting now settings inp).settings) ∧
    invalidTime zeroInput.timeValue = true ∧
    statExists { categories := [] } zeroInput.categoryId zeroInput.statName = false ∧
    jsLookup (forceAddDecaySetting 1000 [] zeroInput).settings "c-s"
      = some (mkSetting zeroInput 1000) := by
  refine ⟨fun now settings inp => ⟨?_, rfl, rfl⟩, by norm_num [invalidTime, zeroInput], rfl, rfl⟩
  exact jsLookup_jsSet_self settings (getSettingKey inp.categoryId inp.statName)
    (mkSetting inp now)

/-- C3 counterexample: a wake-up that fires two-and-a-half cycles after
`lastUpdate` (at `now = 150000` ms, cycle 60000 ms, 2 points per cycle)
stores `lastUpdate = 150000` — the firing time — whereas advancing by the
consumed whole cycles would give `120000`; and it deducts 2 points (one
cycle), not the 4 points of the consumed whole cycles. -/
theorem timer_callback_reset_cex :
    ((timerFired 150000 fireSheet
        { settings := [("mind-Focus", fireSetting)], timers := ["mind-Focus"] }
        "mind-Focus" fireSetting).sched.settings.map (fun e => (e.1, e.2.lastUpdate)))
      = [("mind-Focus", (150000:ℚ))] ∧
    fireSetting.lastUpdate
      + ((⌊((150000:ℚ) - fireSetting.lastUpdate)
            / (1 * msPerUnit TimeUnit.minutes)⌋ : ℤ) : ℚ)
        * (1 * msPerUnit TimeUnit.minutes) = 120000 ∧
    (150000:ℚ) ≠ 120000 ∧
    getStatValue (timerFired 150000 fireSheet
        { settings := [("mind-Focus", fireSetting)], timers := ["mind-Focus"] }
        "mind-Focus" fireSetting).sheet "mind" "Focus" = some 8 ∧
    fireSetting.points
      * ((⌊((150000:ℚ) - fireSetting.lastUpdate)
            / (1 * msPerUnit TimeUnit.minutes)⌋ : ℤ) : ℚ) = 4 := by
  refine ⟨?_, ?_, by norm_num, ?_, ?_⟩
  · norm_num [timerFired, statExists, jsLookup, fireSheet, fireSetting, demoCat, jsSet]
  · norm_num [fireSetting, msPerUnit, Int.floor_eq_iff]
  · norm_num [timerFired, statExists, jsLookup, fireSheet, fireSetting, demoCat,
      updateStat, bumpStat, sumValues, jsSet, getStatValue]
  · norm_num [fireSetting, msPerUnit, Int.floor_eq_iff]

/-- C3 (amended): when a scheduled wake-up fires for a setting whose
referenced attribute still exists, the callback deducts the setting's
points exactly once (one cycle, regardless of how late it fires) and sets
`lastUpdate` to the firing time — it does not advance by the consumed whole
cycles; multi-cycle catch-up happens only in the reconciliation pass. -/
theorem timer_fire_single_cycle_reset (now : ℚ) (sheet : CharacterSheet)
    (st : SchedState) (key : String) (s : DecaySetting) (v : ℚ)
    (hval : getStatValue sheet s.categoryId s.statName = some v) :
    jsLookup (timerFired now sheet st key s).sched.settings key
      = some { s with lastUpdate := now } ∧
    getStatValue (timerFired now sheet st key s).sheet s.categoryId s.statName
      = some (v - s.points) ∧
    (timerFired now sheet st key s).deductions
      = [(s.categoryId, s.statName, s.points)] := by
  have hex := statExists_of_getStatValue hval
  unfold timerFired
  rw [hex, if_pos rfl]
  refine ⟨jsLookup_jsSet_self _ _ _, ?_, rfl⟩
  have h2 := getStatValue_updateStat (-s.points) hval
  rw [h2, ← sub_eq_add_neg]

theorem timer_fire_single_cycle_reset_witness :
    getStatValue fireSheet fireSetting.categoryId fireSetting.statName = some 10 ∧
    jsLookup (timerFired 61000 fireSheet
        { settings := [("mind-Focus", fireSetting)], timers := ["mind-Focus"] }
        "mind-Focus" fireSetting).sched.settings "mind-Focus"
      = some { fireSetting with lastUpdate := 61000 } ∧
    getStatValue (timerFired 61000 fireSheet
        { settings := [("mind-Focus", fireSetting)], timers := ["mind-Focus"] }
        "mind-Focus" fireSetting).sheet fireSetting.categoryId fireSetting.statName
      = some (10 - fireSetting.points) ∧
    (timerFired 61000 fireSheet
        { settings := [("mind-Focus", fireSetting)], timers := ["mind-Focus"] }
        "mind-Focus" fireSetting).deductions
      = [(fireSetting.categoryId, fireSetting.statName, fireSetting.points)] := by
  have h := timer_fire_single_cycle_reset 61000 fireSheet
    { settings := [("mind-Focus", fireSetting)], timers := ["mind-Focus"] }
    "mind-Focus" fireSetting 10 rfl
  exact ⟨rfl, h.1, h.2.1, h.2.2⟩

/-- C7 counterexample: a DecaySetting whose referenced category no longer
exists but whose `lastUpdate` is within 5 seconds of `now` survives the
reconciliation pass — it is not removed. -/
theorem orphan_pruning_cex :
    statExists demoSheet orphanSetting.categoryId orphanSetting.statName = false ∧
    (3000:ℚ) - orphanSetting.lastUpdate < 5000 ∧
    jsLookup (reconcile 3000 demoSheet [("gone-X", orphanSetting)]).settings "gone-X"
      = some orphanSetting := by
  refine ⟨rfl, by norm_num [orphanSetting], ?_⟩
  norm_num [reconcile, reconcileStep, orphanSetting, demoSheet, demoCat, statExists,
    jsLookup, invalidTime, JNum.toQ, msPerUnit, jsSet, updateStat]

/-- C7 (amended): after a category or attribute is deleted, the
reconciliation pass removes an orphaned DecaySetting — with no deduction
and no sheet change — provided its `lastUpdate` is at least 5000 ms before
`now` (a fresher orphan survives that pass); and a wake-up that fires for a
missing attribute skips the deduction, leaves the sheet unchanged, removes
the setting, and cancels its timer. -/
theorem orphan_setting_handling :
    (∀ (now : ℚ) (sheet0 : CharacterSheet) (acc : ReconAcc) (key : String)
        (s : DecaySetting),
      statExists sheet0 s.categoryId s.statName = false →
      5000 ≤ now - s.lastUpdate →
      reconcileStep now sheet0 acc (key, s) = acc) ∧
    (∀ (now : ℚ) (sheet : CharacterSheet) (st : SchedState) (key : String)
        (s : DecaySetting),
      statExists sheet s.categoryId s.statName = false →
      (timerFired now sheet st key s).sheet = sheet ∧
      (timerFired now sheet st key s).deductions = [] ∧
      (timerFired now sheet st key s).sched.settings = jsErase st.settings key ∧
      (timerFired now sheet st key s).sched.timers = st.timers.erase key) := by
  refine ⟨fun now sheet0 acc key s hex hold =>
    reconcileStep_orphan now sheet0 acc key s hex hold, ?_⟩
  intro now sheet st key s hex
  unfold timerFired
  rw [hex, if_neg Bool.false_ne_true]
  exact ⟨rfl, rfl, rfl, rfl⟩

theorem orphan_setting_handling_witness :
    statExists demoSheet orphanSetting.categoryId orphanSetting.statName = false ∧
    (5000:ℚ) ≤ 6000 - orphanSetting.lastUpdate ∧
    reconcileStep 6000 demoSheet { settings := [], sheet := demoSheet, deductions := [] }
      ("gone-X", orphanSetting)
      = { settings := [], sheet := demoSheet, deductions := [] } ∧
    (timerFired 6000 demoSheet
        { settings := [("gone-X", orphanSetting)], timers := ["gone-X"] }
        "gone-X" orphanSetting).sheet = demoSheet ∧
    (timerFired 6000 demoSheet
        { settings := [("gone-X", orphanSetting)], timers := ["gone-X"] }
        "gone-X" orphanSetting).deductions = [] := by
  have ha := orphan_setting_handling.1 6000 demoSheet
    { settings := [], sheet := demoSheet, deductions := [] } "gone-X" orphanSetting
    rfl (by norm_num [orphanSetting])
  have hb := orphan_setting_handling.2 6000 demoSheet
    { settings := [("gone-X", orphanSetting)], timers := ["gone-X"] }
    "gone-X" orphanSetting rfl
  exact ⟨rfl, by norm_num [orphanSetting], ha, hb.1, hb.2.1⟩

/-- C2 counterexample: `addCategory` stores the caller-supplied `score`
verbatim, so adding a category whose score (0) differs from
`10 + sum(values)` (here `10`) breaks the score invariant. -/
theorem score_invariant_cex :
    ¬ sheetInvariant (addCategory { categories := [] } "c1" badCatInput) := by
  intro h
  have hmem : ("c1", mkCategory badCatInput "c1")
      ∈ (addCategory { categories := [] } "c1" badCatInput).categories := by
    simp [addCategory, jsSet]
  have h2 := h _ hmem
  norm_num [scoreOK, mkCategory, badCatInput, sumValues] at h2

/-- C2 (amended): the score invariant `score = 10 + sum(values)` is
preserved by `updateStat` (which recomputes it for the touched category),
by `logActivity`, `editActivity`, `deleteActivity` (which mutate attribute
values only through `updateStat`), and by `deleteCategory`; `addCategory`
and `updateCategory` store the caller-supplied data verbatim, so they
preserve the invariant only when the supplied (respectively merged)
category itself satisfies it. -/
theorem score_invariant_amended :
    (∀ (sheet : CharacterSheet) (c s : String) (p : ℚ),
      sheetInvariant sheet → sheetInvariant (updateStat sheet c s p)) ∧
    (∀ (st : CharState) (newId newDate activity categoryId : String)
        (stats : StatRef) (p : ℚ), sheetInvariant st.sheet →
      sheetInvariant (logActivity st newId newDate activity categoryId stats p).sheet) ∧
    (∀ (st : CharState) (id : String) (u : ActivityUpdates), sheetInvariant st.sheet →
      sheetInvariant (editActivity st id u).sheet) ∧
    (∀ (st : CharState) (id : String), sheetInvariant st.sheet →
      sheetInvariant (deleteActivity st id).sheet) ∧
    (∀ (sheet : CharacterSheet) (newId : String) (c : CategoryInput),
      sheetInvariant sheet → scoreOK (mkCategory c newId) →
      sheetInvariant (addCategory sheet newId c)) ∧
    (∀ (sheet : CharacterSheet) (id : String) (u : CategoryUpdates),
      sheetInvariant sheet →
      (∀ c0, jsLookup sheet.categories id = some c0 → scoreOK (mergeCategory c0 u)) →
      sheetInvariant (updateCategory sheet id u)) ∧
    (∀ (sheet : CharacterSheet) (id : String), sheetInvariant sheet →
      sheetInvariant (deleteCategory sheet id)) := by
  refine ⟨sheetInvariant_updateStat, ?_, ?_, ?_, ?_, ?_, ?_⟩
  · intro st newId newDate activity categoryId stats p h
    exact sheetInvariant_applyPoints _ _ _ _ h
  · intro st id u h
    unfold editActivity
    split
    · exact h
    · next i hfind =>
      split
      · exact h
      · next e hget =>
        by_cases hch : u.stat?.isSome = true ∨ u.points?.isSome = true
        · have hsheet : (⟨if u.stat?.isSome = true ∨ u.points?.isSome = true then
              applyPoints (applyPoints st.sheet e.category e.stat.toList (-e.points))
                e.category ((u.stat?.map StatRef.toList).getD e.stat.toList)
                (u.points?.getD e.points)
            else st.sheet, st.log.set i (mergeActivity e u)⟩ : CharState).sheet
              = applyPoints (applyPoints st.sheet e.category e.stat.toList (-e.points))
                e.category ((u.stat?.map StatRef.toList).getD e.stat.toList)
                (u.points?.getD e.points) := by
            simp only [if_pos hch]
          rw [hsheet]
          exact sheetInvariant_applyPoints _ _ _ _ (sheetInvariant_applyPoints _ _ _ _ h)
        · have hsheet : (⟨if u.stat?.isSome = true ∨ u.points?.isSome = true then
              applyPoints (applyPoints st.sheet e.category e.stat.toList (-e.points))
                e.category ((u.stat?.map StatRef.toList).getD e.stat.toList)
                (u.points?.getD e.points)
            else st.sheet, st.log.set i (mergeActivity e u)⟩ : CharState).sheet
              = st.sheet := by
            simp only [if_neg hch]
          rw [hsheet]
          exact h
  · intro st id h
    exact h
  · intro sheet newId c h hok
    intro e he
    rcases mem_jsSet he with h1 | h1
    · rw [h1]; exact hok
    · exact h e h1
  · intro sheet id u h hm
    unfold updateCategory
    split
    · exact h
    · next c0 hc =>
      intro e he
      rcases mem_jsSet he with h1 | h1
      · rw [h1]; exact hm c0 hc
      · exact h e h1
  · intro sheet id h
    intro e he
    exact h e (mem_jsErase he)

theorem score_invariant_amended_witness :
    sheetInvariant demoSheet ∧ sheetInvariant (updateStat demoSheet "mind" "Focus" 3) :=
  ⟨by norm_num [sheetInvariant, demoSheet, demoCat, scoreOK, sumValues],
   score_invariant_amended.1 demoSheet "mind" "Focus" 3
     (by norm_num [sheetInvariant, demoSheet, demoCat, scoreOK, sumValues])⟩

/-- `editActivity` on a found entry with an edit that touches `stat` or
`points`: the reversal-then-reapply equation. -/
theorem editActivity_touching (st : CharState) (id : String) (u : ActivityUpdates)
    (i : ℕ) (e : ActivityLog)
    (hfind : st.log.findIdx? (fun a => a.id = id) = some i)
    (hget : st.log[i]? = some e)
    (hchange : u.stat?.isSome = true ∨ u.points?.isSome = true) :
    (editActivity st id u).sheet
      = applyPoints (applyPoints st.sheet e.category e.stat.toList (-e.points))
          e.category ((u.stat?.map StatRef.toList).getD e.stat.toList)
          (u.points?.getD e.points) ∧
    (editActivity st id u).log = st.log.set i (mergeActivity e u) := by
  have heq : editActivity st id u =
      ⟨if u.stat?.isSome = true ∨ u.points?.isSome = true then
          applyPoints (applyPoints st.sheet e.category e.stat.toList (-e.points))
            e.category ((u.stat?.map StatRef.toList).getD e.stat.toList)
            (u.points?.getD e.points)
        else st.sheet,
        st.log.set i (mergeActivity e u)⟩ := by
    unfold editActivity
    split
    · next hnone => rw [hfind] at hnone; cases hnone
    · next i2 hfind2 =>
      rw [hfind] at hfind2
      injection hfind2 with hii
      subst hii
      split
      · next hnone => rw [hget] at hnone; cases hnone
      · next e2 hget2 =>
        rw [hget] at hget2
        injection hget2 with hee
        subst hee
        rfl
  rw [heq]
  exact ⟨by simp only [if_pos hchange], rfl⟩

/-- C4: editing an existing activity whose edit touches the stat set or the
points first subtracts the old points from each old stat, then adds the
merged points to each new stat (both via `updateStat` against the original
entry's category), and stores the merged entry; in particular, editing a
(`Focus`, +3) entry to +5 leaves the `Focus` value exactly 2 higher. -/
theorem activity_edit_two_phase :
    (∀ (st : CharState) (id : String) (u : ActivityUpdates) (i : ℕ) (e : ActivityLog),
      st.log.findIdx? (fun a => a.id = id) = some i →
      st.log[i]? = some e →
      (u.stat?.isSome = true ∨ u.points?.isSome = true) →
      (editActivity st id u).sheet
        = applyPoints (applyPoints st.sheet e.category e.stat.toList (-e.points))
            e.category ((u.stat?.map StatRef.toList).getD e.stat.toList)
            (u.points?.getD e.points) ∧
      (editActivity st id u).log = st.log.set i (mergeActivity e u)) ∧
    (∀ (st : CharState) (id : String) (i : ℕ) (e : ActivityLog) (v : ℚ),
      st.log.findIdx? (fun a => a.id = id) = some i →
      st.log[i]? = some e →
      e.stat = StatRef.one "Focus" → e.points = 3 →
      getStatValue st.sheet e.category "Focus" = some v →
      getStatValue (editActivity st id { points? := some 5 }).sheet e.category "Focus"
        = some (v + 2)) := by
  refine ⟨fun st id u i e hf hg hc => editActivity_touching st id u i e hf hg hc, ?_⟩
  intro st id i e v hf hg hstat hpts hval
  have h1 := (editActivity_touching st id { points? := some 5 } i e hf hg (Or.inr rfl)).1
  rw [h1, hstat]
  simp only [StatRef.toList, Option.map_none', Option.getD_none, Option.getD_some,
    applyPoints, List.foldl]
  rw [hpts]
  have h2 := getStatValue_updateStat (-(3:ℚ)) hval
  have h3 := getStatValue_updateStat (5:ℚ) h2
  rw [h3]
  norm_num
  ring

theorem activity_edit_two_phase_witness :
    c4State.log.findIdx? (fun a => a.id = "a1") = some 0 ∧
    c4State.log[0]? = some c4Entry ∧
    c4Entry.stat = StatRef.one "Focus" ∧ c4Entry.points = 3 ∧
    getStatValue c4State.sheet c4Entry.category "Focus" = some 3 ∧
    getStatValue (editActivity c4State "a1" { points? := some 5 }).sheet
      c4Entry.category "Focus" = some (3 + 2) := by
  have hf : c4State.log.findIdx? (fun a => a.id = "a1") = some 0 := rfl
  have hg : c4State.log[0]? = some c4Entry := rfl
  have hv : getStatValue c4State.sheet c4Entry.category "Focus" = some 3 := by
    norm_num [c4State, c4Entry, logActivity, applyPoints, demoSheet, demoCat, updateStat,
      bumpStat, sumValues, jsSet, jsLookup, getStatValue, StatRef.toList]
  exact ⟨hf, hg, rfl, rfl, hv,
    activity_edit_two_phase.2 c4State "a1" 0 c4Entry 3 hf hg rfl rfl hv⟩

/-- The activity-log filter of `deleteActivity` removes exactly one entry
when ids are unique and the id is present. -/
theorem filter_ne_id_length (l : List ActivityLog) (id : String)
    (hnd : (l.map (fun a => a.id)).Nodup) (hmem : ∃ e ∈ l, e.id = id) :
    (l.filter (fun a => ¬(a.id = id))).length + 1 = l.length := by
  induction l with
  | nil =>
    rcases hmem with ⟨e, he, _⟩
    cases he
  | cons a rest ih =>
    rw [List.map_cons, List.nodup_cons] at hnd
    by_cases ha : a.id = id
    · rw [List.filter_cons]
      have hpa : (decide ¬(a.id = id)) = false := by simp [ha]
      rw [hpa]
      have hres : rest.filter (fun x => decide ¬(x.id = id)) = rest := by
        apply List.filter_eq_self.mpr
        intro b hb
        simp only [decide_eq_true_eq]
        intro hbid
        exact hnd.1 (List.mem_map.mpr ⟨b, hb, by rw [hbid, ha]⟩)
      simp only [Bool.false_eq_true, if_false]
      rw [hres]
      simp
    · rw [List.filter_cons]
      have hpa : (decide ¬(a.id = id)) = true := by simp [ha]
      rw [hpa, if_pos rfl]
      rcases hmem with ⟨e, he, heid⟩
      rcases List.mem_cons.mp he with rfl | he2
      · exact absurd heid ha
      · have hlen := ih hnd.2 ⟨e, he2, heid⟩
        simp only [List.length_cons]
        omega

/-- C6: for an id present in the log (ids unique), `deleteActivity` removes
exactly the matching entry and changes nothing else — the CharacterSheet
(every attribute value and every category score) is untouched; the removed
entry's point effect is not reversed. -/
theorem delete_activity_frame (st : CharState) (id : String)
    (hnd : (st.log.map (fun a => a.id)).Nodup)
    (hmem : ∃ e ∈ st.log, e.id = id) :
    (deleteActivity st id).sheet = st.sheet ∧
    (deleteActivity st id).log = st.log.filter (fun a => ¬(a.id = id)) ∧
    (deleteActivity st id).log.length + 1 = st.log.length :=
  ⟨rfl, rfl, filter_ne_id_length st.log id hnd hmem⟩

theorem delete_activity_frame_witness :
    (c4State.log.map (fun a => a.id)).Nodup ∧
    (∃ e ∈ c4State.log, e.id = "a1") ∧
    (deleteActivity c4State "a1").sheet = c4State.sheet ∧
    (deleteActivity c4State "a1").log
      = c4State.log.filter (fun a => ¬(a.id = "a1")) ∧
    (deleteActivity c4State "a1").log.length + 1 = c4State.log.length := by
  have hnd : (c4State.log.map (fun a => a.id)).Nodup := by
    simp [c4State, logActivity]
  have hmem : ∃ e ∈ c4State.log, e.id = "a1" :=
    ⟨c4Entry, by simp [c4State, logActivity, c4Entry], rfl⟩
  have h := delete_activity_frame c4State "a1" hnd hmem
  exact ⟨hnd, hmem, h.1, h.2.1, h.2.2⟩

/-- C9: reconciliation is idempotent — running the pass a second time with
the same `now`, on the sheet and settings produced by the first run,
performs zero further deduction and changes neither the settings (so no
`lastUpdate` moves) nor the sheet. -/
theorem decay_reconcile_idempotent (now : ℚ) (sheet : CharacterSheet) (key : String)
    (s : DecaySetting) :
    (reconcile now (reconcile now sheet [(key, s)]).sheet
        (reconcile now sheet [(key, s)]).settings).deductions = [] ∧
    (reconcile now (reconcile now sheet [(key, s)]).sheet
        (reconcile now sheet [(key, s)]).settings).settings
      = (reconcile now sheet [(key, s)]).settings ∧
    (reconcile now (reconcile now sheet [(key, s)]).sheet
        (reconcile now sheet [(key, s)]).settings).sheet
      = (reconcile now sheet [(key, s)]).sheet := by
  have hr0 : reconcile now sheet [(key, s)]
      = reconcileStep now sheet { settings := [], sheet := sheet, deductions := [] }
        (key, s) := rfl
  have hkeep : (now - s.lastUpdate < 5000 ∨
      statExists sheet s.categoryId s.statName = true) →
      (s.enabled = false ∨ invalidTime s.timeValue = true ∨
        ∃ q, s.timeValue = JNum.val q ∧ 0 < q ∧
          now - s.lastUpdate < q * msPerUnit s.timeUnit) →
      (reconcile now (reconcile now sheet [(key, s)]).sheet
          (reconcile now sheet [(key, s)]).settings).deductions = [] ∧
      (reconcile now (reconcile now sheet [(key, s)]).sheet
          (reconcile now sheet [(key, s)]).settings).settings
        = (reconcile now sheet [(key, s)]).settings ∧
      (reconcile now (reconcile now sheet [(key, s)]).sheet
          (reconcile now sheet [(key, s)]).settings).sheet
        = (reconcile now sheet [(key, s)]).sheet := by
    intro hg hsk
    have h1 : reconcile now sheet [(key, s)]
        = { settings := [(key, s)], sheet := sheet, deductions := [] } := by
      rw [hr0, reconcileStep_keep now sheet _ key s hg hsk]
      rfl
    rw [h1]
    dsimp only
    rw [h1]
    exact ⟨rfl, rfl, rfl⟩
  have hdecay : ∀ q : ℚ, (now - s.lastUpdate < 5000 ∨
      statExists sheet s.categoryId s.statName = true) →
      s.enabled = true → s.timeValue = JNum.val q → 0 < q →
      q * msPerUnit s.timeUnit ≤ now - s.lastUpdate →
      (reconcile now (reconcile now sheet [(key, s)]).sheet
          (reconcile now sheet [(key, s)]).settings).deductions = [] ∧
      (reconcile now (reconcile now sheet [(key, s)]).sheet
          (reconcile now sheet [(key, s)]).settings).settings
        = (reconcile now sheet [(key, s)]).settings ∧
      (reconcile now (reconcile now sheet [(key, s)]).sheet
          (reconcile now sheet [(key, s)]).settings).sheet
        = (reconcile now sheet [(key, s)]).sheet := by
    intro q hg he htv hq hge
    have hqm : (0:ℚ) < q * msPerUnit s.timeUnit := mul_pos hq (msPerUnit_pos _)
    have h1 : reconcile now sheet [(key, s)]
        = { settings := [(key, { s with lastUpdate := s.lastUpdate
              + ((⌊(now - s.lastUpdate) / (q * msPerUnit s.timeUnit)⌋ : ℤ) : ℚ)
                * (q * msPerUnit s.timeUnit) })]
            sheet := updateStat sheet s.categoryId s.statName
              (-(s.points * ((⌊(now - s.lastUpdate) / (q * msPerUnit s.timeUnit)⌋ : ℤ) : ℚ)))
            deductions := [(s.categoryId, s.statName, s.points
              * ((⌊(now - s.lastUpdate) / (q * msPerUnit s.timeUnit)⌋ : ℤ) : ℚ))] } := by
      rw [hr0, reconcileStep_decay now sheet _ key s q he htv hq hg hge]
      rfl
    -- arithmetic: after consuming the whole cycles, less than one cycle remains
    have hfl := Int.lt_floor_add_one ((now - s.lastUpdate) / (q * msPerUnit s.timeUnit))
    have h4 : now - s.lastUpdate
        < (((⌊(now - s.lastUpdate) / (q * msPerUnit s.timeUnit)⌋ : ℤ) : ℚ) + 1)
          * (q * msPerUnit s.timeUnit) := (div_lt_iff₀ hqm).mp hfl
    have h5 : (((⌊(now - s.lastUpdate) / (q * msPerUnit s.timeUnit)⌋ : ℤ) : ℚ) + 1)
          * (q * msPerUnit s.timeUnit)
        = ((⌊(now - s.lastUpdate) / (q * msPerUnit s.timeUnit)⌋ : ℤ) : ℚ)
            * (q * msPerUnit s.timeUnit) + q * msPerUnit s.timeUnit := by ring
    have harith : now - (s.lastUpdate
        + ((⌊(now - s.lastUpdate) / (q * msPerUnit s.timeUnit)⌋ : ℤ) : ℚ)
          * (q * msPerUnit s.timeUnit)) < q * msPerUnit s.timeUnit := by
      rw [h5] at h4
      linarith
    -- one whole cycle was consumed, so `lastUpdate` moved forward
    have hone : (1:ℚ) ≤ ((⌊(now - s.lastUpdate) / (q * msPerUnit s.timeUnit)⌋ : ℤ) : ℚ) := by
      have h6 : (1:ℚ) ≤ (now - s.lastUpdate) / (q * msPerUnit s.timeUnit) :=
        (one_le_div₀ hqm).mpr hge
      exact_mod_cast Int.le_floor.mpr (by exact_mod_cast h6)
    have hg2 : now - (s.lastUpdate
        + ((⌊(now - s.lastUpdate) / (q * msPerUnit s.timeUnit)⌋ : ℤ) : ℚ)
          * (q * msPerUnit s.timeUnit)) < 5000 ∨
        statExists (updateStat sheet s.categoryId s.statName
          (-(s.points * ((⌊(now - s.lastUpdate) / (q * msPerUnit s.timeUnit)⌋ : ℤ) : ℚ))))
          s.categoryId s.statName = true := by
      rcases hg with hg | hg
      · refine Or.inl ?_
        have hpos : 0 < ((⌊(now - s.lastUpdate) / (q * msPerUnit s.timeUnit)⌋ : ℤ) : ℚ)
            * (q * msPerUnit s.timeUnit) := by nlinarith
        linarith
      · refine Or.inr ?_
        rw [statExists_updateStat]
        exact hg
    have h2 := reconcileStep_keep now
      (updateStat sheet s.categoryId s.statName
        (-(s.points * ((⌊(now - s.lastUpdate) / (q * msPerUnit s.timeUnit)⌋ : ℤ) : ℚ))))
      { settings := [],
        sheet := updateStat sheet s.categoryId s.statName
          (-(s.points * ((⌊(now - s.lastUpdate) / (q * msPerUnit s.timeUnit)⌋ : ℤ) : ℚ))),
        deductions := [] }
      key
      { s with lastUpdate := s.lastUpdate
          + ((⌊(now - s.lastUpdate) / (q * msPerUnit s.timeUnit)⌋ : ℤ) : ℚ)
            * (q * msPerUnit s.timeUnit) }
      hg2 (Or.inr (Or.inr ⟨q, htv, hq, harith⟩))
    rw [h1]
    dsimp only
    rw [show reconcile now
        (updateStat sheet s.categoryId s.statName
          (-(s.points * ((⌊(now - s.lastUpdate) / (q * msPerUnit s.timeUnit)⌋ : ℤ) : ℚ))))
        [(key, { s with lastUpdate := s.lastUpdate
            + ((⌊(now - s.lastUpdate) / (q * msPerUnit s.timeUnit)⌋ : ℤ) : ℚ)
              * (q * msPerUnit s.timeUnit) })]
        = reconcileStep now
          (updateStat sheet s.categoryId s.statName
            (-(s.points * ((⌊(now - s.lastUpdate) / (q * msPerUnit s.timeUnit)⌋ : ℤ) : ℚ))))
          { settings := [],
            sheet := updateStat sheet s.categoryId s.statName
              (-(s.points * ((⌊(now - s.lastUpdate) / (q * msPerUnit s.timeUnit)⌋ : ℤ) : ℚ))),
            deductions := [] }
          (key, { s with lastUpdate := s.lastUpdate
              + ((⌊(now - s.lastUpdate) / (q * msPerUnit s.timeUnit)⌋ : ℤ) : ℚ)
                * (q * msPerUnit s.timeUnit) }) from rfl, h2]
    exact ⟨rfl, rfl, rfl⟩
  by_cases hex : statExists sheet s.categoryId s.statName = true
  · by_cases he : s.enabled = true
    · cases htv : s.timeValue with
      | nan => exact hkeep (Or.inr hex) (Or.inr (Or.inl (by rw [htv]; rfl)))
      | val q =>
        rcases le_or_lt q 0 with hq | hq
        · exact hkeep (Or.inr hex)
            (Or.inr (Or.inl (by rw [htv]; simp [invalidTime, hq])))
        · rcases lt_or_le (now - s.lastUpdate) (q * msPerUnit s.timeUnit) with hlt | hge
          · exact hkeep (Or.inr hex) (Or.inr (Or.inr ⟨q, htv, hq, hlt⟩))
          · exact hdecay q (Or.inr hex) he htv hq hge
    · exact hkeep (Or.inr hex)
        (Or.inl (by revert he; cases s.enabled <;> simp))
  · have hexf : statExists sheet s.categoryId s.statName = false := by
      revert hex; cases statExists sheet s.categoryId s.statName <;> simp
    by_cases happ : now - s.lastUpdate < 5000
    · by_cases he : s.enabled = true
      · cases htv : s.timeValue with
        | nan => exact hkeep (Or.inl happ) (Or.inr (Or.inl (by rw [htv]; rfl)))
        | val q =>
          rcases le_or_lt q 0 with hq | hq
          · exact hkeep (Or.inl happ)
              (Or.inr (Or.inl (by rw [htv]; simp [invalidTime, hq])))
          · rcases lt_or_le (now - s.lastUpdate) (q * msPerUnit s.timeUnit) with hlt | hge
            · exact hkeep (Or.inl happ) (Or.inr (Or.inr ⟨q, htv, hq, hlt⟩))
            · exact hdecay q (Or.inl happ) he htv hq hge
      · exact hkeep (Or.inl happ)
          (Or.inl (by revert he; cases s.enabled <;> simp))
    · have h1 : reconcile now sheet [(key, s)]
          = { settings := [], sheet := sheet, deductions := [] } := by
        rw [hr0, reconcileStep_orphan now sheet _ key s hexf (not_lt.mp happ)]
      rw [h1]
      exact ⟨rfl, rfl, rfl⟩

end DailyDigits
